import Mathlib

/-!
Shallow embedding of the campaign-funding ledger of src/bot.py
(iftar per-day accounting with instant close/rollover, the water
collective batches, the unbounded Id counter, the ZF tally, the
admin command handlers and the Stars payment handler), together
with theorems settling the specification claims.

Storage conventions of the embedding:
  - the sqlite table iftar_days(day, target_portions, raised_portions,
    is_closed) is modelled as a total function from day numbers to rows;
    a day that was never inserted reads as the row ensure_iftar_day would
    insert, namely (DEFAULT_IFTAR_TARGET_PORTIONS, 0, 0), which is also
    exactly what iftar_get returns for a missing row, so ensure_iftar_day
    is the identity in this model;
  - python integers are modelled as Int (amounts can be negative: the
    slash-command handlers parse int(float(arg)) without a sign check);
  - day keys are modelled as naturals (the handlers obtain them from
    iftar_campaign_day(), which yields 1..30);
  - kv-store integers (water_batch, water_target_eur, water_raised_eur,
    id_raised_eur) are modelled as Int fields of explicit state records;
  - the zf_entries table is modelled as a list of rows carrying the
    autoincrement id explicitly.
-/

namespace SadaqaBot

/-- One row of the iftar_days table: target_portions, raised_portions,
is_closed. -/
structure IftarDay where
  target : Int
  raised : Int
  closed : Bool
deriving DecidableEq

/-- DEFAULT_IFTAR_TARGET_PORTIONS (env default 100). -/
def DEFAULT_IFTAR_TARGET_PORTIONS : Int := 100

/-- DEFAULT_WATER_TARGET_EUR (env default 235). -/
def DEFAULT_WATER_TARGET_EUR : Int := 235

/-- The iftar_days table as a total map from day number to row. -/
def IftarState := Nat → IftarDay

/-- A single-row SQL UPDATE on iftar_days. -/
def setDay (s : IftarState) (d : Nat) (c : IftarDay) : IftarState :=
  Function.update s d c

/-- The table as created by db_init plus ensure_iftar_day defaults:
every day reads as (DEFAULT_IFTAR_TARGET_PORTIONS, 0, open). -/
def initIftar : IftarState := fun _ => ⟨DEFAULT_IFTAR_TARGET_PORTIONS, 0, false⟩

/-- iftar_set_target: UPDATE iftar_days SET target_portions=? WHERE day=?.
No check of is_closed is performed by the source. -/
def iftar_set_target (s : IftarState) (day : Nat) (target : Int) : IftarState :=
  setDay s day ⟨target, (s day).raised, (s day).closed⟩

/-- The autoclose while-True loop inside iftar_add_with_autoclose
(bot.py lines 442-485).  State of the iteration: current day and the
overflow variable (initially 0).  Each pass re-reads the current day,
breaks if raised < target, otherwise clamps the day to its target and
marks it closed, moves the overflow to next_day = min(30, cur_day + 1)
reopening it, then breaks if cur_day >= 30 or overflow <= 0.
Returns (table, final cur_day, final overflow); the echoed portions
component of the python return value is omitted. -/
def iftarLoop (s : IftarState) (curDay : Nat) (overflow : Int) :
    IftarState × Nat × Int :=
  let c := s curDay
  if c.raised < c.target then (s, curDay, overflow)
  else
    let ov := c.raised - c.target
    let s1 := setDay s curDay ⟨c.target, c.target, true⟩
    let nd := min 30 (curDay + 1)
    let n := s1 nd
    let s2 := setDay s1 nd ⟨n.target, n.raised + ov, false⟩
    if 30 ≤ nd then (s2, nd, ov)
    else if ov ≤ 0 then (s2, nd, ov)
    else iftarLoop s2 nd ov
termination_by 30 - curDay
decreasing_by
  simp only [Nat.min_def] at *
  split_ifs at * <;> omega

/-- iftar_add_with_autoclose: reads the day, writes raised + portions
back unconditionally (no is_closed check, no sign check), then runs the
autoclose loop starting at that day. -/
def iftar_add_with_autoclose (s : IftarState) (day : Nat) (portions : Int) :
    IftarState × Nat × Int :=
  let c := s day
  let s1 := setDay s day ⟨c.target, c.raised + portions, c.closed⟩
  iftarLoop s1 day 0

/-- Fuel-indexed semantics of the same while-True loop: one unit of fuel
per iteration, none when the fuel runs out before the loop breaks. -/
def iftarLoopF : Nat → IftarState → Nat → Int → Option (IftarState × Nat × Int)
  | 0, _, _, _ => none
  | fuel + 1, s, curDay, overflow =>
    let c := s curDay
    if c.raised < c.target then some (s, curDay, overflow)
    else
      let ov := c.raised - c.target
      let s1 := setDay s curDay ⟨c.target, c.target, true⟩
      let nd := min 30 (curDay + 1)
      let n := s1 nd
      let s2 := setDay s1 nd ⟨n.target, n.raised + ov, false⟩
      if 30 ≤ nd then some (s2, nd, ov)
      else if ov ≤ 0 then some (s2, nd, ov)
      else iftarLoopF fuel s2 nd ov

/-- rollover_iftar_if_needed, at a date change (last_rollover_date differs
from today): if prev_day is not closed and has raised > 0, its raised is
moved onto new_day (the new day row is read before prev_day is zeroed,
and only its raised_portions column is written). -/
def rollover_iftar_if_needed (s : IftarState) (prevDay newDay : Nat) : IftarState :=
  let p := s prevDay
  if p.closed = false ∧ 0 < p.raised then
    let n := s newDay
    let s1 := setDay s prevDay ⟨p.target, 0, p.closed⟩
    setDay s1 newDay ⟨n.target, n.raised + p.raised, n.closed⟩
  else s

/-- The water kv rows: water_batch, water_target_eur, water_raised_eur. -/
structure WaterState where
  batch : Int
  target : Int
  raised : Int
deriving DecidableEq

/-- The while loop of water_add_with_autoclose: while raised >= target
and target > 0, move to the next batch carrying raised - target. -/
def waterLoop (batch raised target : Int) : Int × Int :=
  if 0 < target ∧ target ≤ raised then waterLoop (batch + 1) (raised - target) target
  else (batch, raised)
termination_by raised.toNat
decreasing_by omega

/-- Fuel-indexed semantics of the water while loop. -/
def waterLoopF : Nat → Int → Int → Int → Option (Int × Int)
  | 0, _, _, _ => none
  | fuel + 1, batch, raised, target =>
    if 0 < target ∧ target ≤ raised then waterLoopF fuel (batch + 1) (raised - target) target
    else some (batch, raised)

/-- water_add_with_autoclose: adds eur to the current batch and rolls
batches forward while the target is reached; writes back water_batch and
water_raised_eur (the target is only read).  Returns the new state and
the (batch, raised) pair the python function returns. -/
def water_add_with_autoclose (w : WaterState) (eur : Int) : WaterState × Int × Int :=
  let r := waterLoop w.batch (w.raised + eur) w.target
  (⟨r.1, w.target, r.2⟩, r.1, r.2)

/-- kv_inc_int on id_raised_eur: read, add in application code, write. -/
def kv_inc_int (v delta : Int) : Int := v + delta

/-- One row of zf_entries; id is the autoincrement primary key. -/
structure ZfEntry where
  id : Nat
  userId : Int
  username : String
  label : String
  people : Int
  bankCode : String
  method : String
deriving DecidableEq

/-- A request to record a ZF contribution (arguments of zf_add_entry). -/
structure ZfReq where
  userId : Int
  username : String
  label : String
  people : Int
  bankCode : String
  method : String
deriving DecidableEq

/-- Label normalisation performed by zf_add_entry: strip, and truncate to
60 characters (stripping trailing blanks again after the cut). -/
def zfNormLabel (l : String) : String :=
  let t := l.trim
  if 60 < t.length then (t.take 60).trimRight else t

/-- The zf_entries table (insertion-ordered rows) together with the next
autoincrement id. -/
structure ZfState where
  nextId : Nat
  entries : List ZfEntry
deriving DecidableEq

/-- The empty zf_entries table. -/
def zfInit : ZfState := ⟨0, []⟩

/-- zf_add_entry: INSERT INTO zf_entries, with the normalised label; the
new row receives the next autoincrement id. -/
def zf_add_entry (s : ZfState) (r : ZfReq) : ZfState :=
  ⟨s.nextId + 1,
   s.entries ++ [⟨s.nextId, r.userId, r.username, zfNormLabel r.label, r.people,
                 r.bankCode, r.method⟩]⟩

/-- zf_totals: SELECT COALESCE(SUM(people),0) FROM zf_entries, and the
derived kilogram total (people times zf_kg_per_person). -/
def zf_totals (s : ZfState) (kgPer : Int) : Int × Int :=
  let totalPeople := (s.entries.map (fun e => e.people)).sum
  (totalPeople, totalPeople * kgPer)

/-- The rows listed by zf_list_text_md: SELECT label, people FROM
zf_entries ORDER BY id ASC.  In this model the rows are stored in
insertion order and zf_entries_sorted_by_id below shows the stored order
is ascending in id, so the ORDER BY returns exactly this list. -/
def zf_list_rows (s : ZfState) : List (String × Int) :=
  s.entries.map (fun e => (e.label, e.people))

/-- The ledger-relevant state touched by the handlers: the iftar table,
the water kv rows and the Id counter kv row. -/
structure BotState where
  iftar : IftarState
  water : WaterState
  idRaised : Int

/-- An already-parsed invoice_payload of a successful Stars payment
(the colon-separated string parsing is presentation glue); ind payloads
and unrecognised payloads only notify the admin and touch no ledger. -/
inductive InvoicePayload where
  | iftar (day : Nat) (portions : Int)
  | water (eur : Int)
  | idc (eur : Int)
  | indIftar (day : Nat) (portions : Int)
  | indWater (batch : Nat) (eur : Int)
  | unknown

/-- The successful_payment handler (bot.py lines 1922-2019), restricted
to its ledger effect.  It keeps no settlement record and consults no
stored key: the credit is applied unconditionally on every delivery of
a payment message. -/
def successful_payment (s : BotState) (p : InvoicePayload) : BotState :=
  match p with
  | .iftar day portions =>
      { s with iftar := (iftar_add_with_autoclose s.iftar day portions).1 }
  | .water eur => { s with water := (water_add_with_autoclose s.water eur).1 }
  | .idc eur => { s with idRaised := kv_inc_int s.idRaised eur }
  | .indIftar _ _ => s
  | .indWater _ _ => s
  | .unknown => s

/-- The /add_iftar admin command: after splitting the text it credits
int(float(arg)) to the current campaign day with no positivity check. -/
def cmd_add_iftar (s : IftarState) (day : Nat) (amount : Int) : IftarState :=
  (iftar_add_with_autoclose s day amount).1

/-- The /add_water admin command: credits int(float(arg)) with no
positivity check. -/
def cmd_add_water (w : WaterState) (amount : Int) : WaterState :=
  (water_add_with_autoclose w amount).1

/-- The /add_id admin command: kv_inc_int with no positivity check. -/
def cmd_add_id (v : Int) (amount : Int) : Int :=
  kv_inc_int v amount

/-- The pending-router mark_iftar_portions / admin_manual_add iftar path:
a parsed amount <= 0 is answered with an error and nothing is written. -/
def mark_iftar_portions (s : IftarState) (day : Nat) (amount : Int) :
    Option IftarState :=
  if amount ≤ 0 then none
  else some (iftar_add_with_autoclose s day amount).1

/-- The pending-router mark_water_eur / admin_manual_add water path:
a parsed amount <= 0 is answered with an error and nothing is written. -/
def mark_water_eur (w : WaterState) (amount : Int) : Option WaterState :=
  if amount ≤ 0 then none
  else some (water_add_with_autoclose w amount).1

/-- The pending-router id_wait_amount / admin_manual_add id path:
a parsed amount <= 0 is answered with an error and nothing is written. -/
def id_wait_amount (v : Int) (amount : Int) : Option Int :=
  if amount ≤ 0 then none
  else some (kv_inc_int v amount)

/-- The unsynchronised read-modify-write of iftar_add_with_autoclose
(bot.py lines 427-436): a handler SELECTs raised_portions, computes
raised + amount in application code, then UPDATEs the row.  Two handlers
H1 (amount a) and H2 (amount b) race on the same open row; the schedule
lists whose turn each atomic storage operation is (true for H1).  Each
handler first reads the cell into its local variable, then writes its
local value plus its amount back. -/
def rmwRun (a b : Int) : List Bool → Int → Option Int → Option Int → Int
  | [], cell, _, _ => cell
  | true :: rest, cell, none, r2 => rmwRun a b rest cell (some cell) r2
  | true :: rest, _, some v, r2 => rmwRun a b rest (v + a) (some v) r2
  | false :: rest, cell, r1, none => rmwRun a b rest cell r1 (some cell)
  | false :: rest, _, r1, some v => rmwRun a b rest (v + b) r1 (some v)

/-- Total raised_portions over the campaign days 0..30 (all days the
handlers and the autoclose loop can touch for day arguments up to 30). -/
def sumRaised (s : IftarState) : Int :=
  ∑ e in Finset.range 31, (s e).raised

/-- Total target over the closed days 0..30. -/
def closedTargetsSum (s : IftarState) : Int :=
  ∑ e in Finset.range 31, if (s e).closed then (s e).target else 0

/-- A row satisfies the closed-cycle clamp invariant if, once closed, its
raised equals its target exactly. -/
def rowClamped (c : IftarDay) : Prop :=
  c.closed = true → c.raised = c.target

/-- The closed-cycle clamp invariant over the whole table. -/
def IftarInv (s : IftarState) : Prop :=
  ∀ e, rowClamped (s e)

/-- A row is fully accounted: closed rows sit at their target and open
rows at zero.  Away from the current collecting day, every row of a
reachable table is of this shape. -/
def rowSettled (c : IftarDay) : Prop :=
  (c.closed = true ∧ c.raised = c.target) ∨ (c.closed = false ∧ c.raised = 0)

/-- Applying one credit to a recurring campaign at its current open day:
the credit goes to the day the previous operation returned. -/
def creditStep (p : IftarState × Nat) (a : Int) : IftarState × Nat :=
  let r := iftar_add_with_autoclose p.1 p.2 a
  (r.1, r.2.1)

/-- A whole credit sequence, started on the fresh table at day 1. -/
def creditSeq (l : List Int) : IftarState × Nat :=
  l.foldl creditStep (initIftar, 1)

/-- A water credit sequence from batch 1, raised 0, with target t. -/
def waterSeq (t : Int) (l : List Int) : WaterState :=
  l.foldl (fun w a => (water_add_with_autoclose w a).1) ⟨1, t, 0⟩

/-- A ZF append sequence on the empty table. -/
def zfFold (l : List ZfReq) : ZfState :=
  l.foldl zf_add_entry zfInit

/-- Shape of a reachable ledger-and-current-day pair: the current day is
inside the window and open, and every other windowed row is settled. -/
def ReachInv (p : IftarState × Nat) : Prop :=
  p.2 ≤ 30 ∧ (p.1 p.2).closed = false ∧
    ∀ e, e ≤ 30 → e ≠ p.2 → rowSettled (p.1 e)

/-- The ledger state of a fresh bot: fresh iftar table, water batch 1
with the default target and nothing raised, empty Id counter. -/
def initBot : BotState :=
  ⟨initIftar, ⟨1, DEFAULT_WATER_TARGET_EUR, 0⟩, 0⟩

/-! Basic store lemmas. -/

theorem setDay_same (s : IftarState) (d : Nat) (c : IftarDay) : setDay s d c d = c := by
  simp [setDay]

theorem setDay_other (s : IftarState) (d e : Nat) (c : IftarDay) (h : e ≠ d) :
    setDay s d c e = s e := by
  simp [setDay, Function.update_noteq h]

/-- Days strictly below the loop's current day (and below the cap) are
never written by the autoclose loop. -/
theorem iftarLoop_frame (s : IftarState) (curDay : Nat) (ov : Int) (e : Nat)
    (h1 : e < curDay) (h2 : e < 30) :
    (iftarLoop s curDay ov).1 e = s e := by
  induction s, curDay, ov using iftarLoop.induct with
  | case1 s cur ov c hlt =>
      rw [iftarLoop.eq_def]
      simp only [if_pos hlt]
  | case2 s cur ov c hlt nd hnd =>
      rw [iftarLoop.eq_def]
      simp only [if_neg hlt, if_pos hnd]
      rw [setDay_other _ _ _ _ (by omega), setDay_other _ _ _ _ (by omega)]
  | case3 s cur ov c hlt ovv nd hnd hov =>
      rw [iftarLoop.eq_def]
      simp only [if_neg hlt, if_neg hnd, if_pos hov]
      rw [setDay_other _ _ _ _ (by omega), setDay_other _ _ _ _ (by omega)]
  | case4 s cur ov c hlt ovv s1 nd n s2 hnd hov ih =>
      rw [iftarLoop.eq_def]
      simp only [if_neg hlt, if_neg hnd, if_neg hov]
      rw [ih (by omega)]
      exact (setDay_other _ _ _ _ (by omega)).trans (setDay_other _ _ _ _ (by omega))

/-- Writing one row changes the table total by the difference on that row. -/
theorem sumRaised_setDay (s : IftarState) (d : Nat) (c : IftarDay) (hd : d < 31) :
    sumRaised (setDay s d c) = sumRaised s + c.raised - (s d).raised := by
  have hmem : d ∈ Finset.range 31 := Finset.mem_range.mpr hd
  have hpt : ∀ e, ((setDay s d c) e).raised =
      Function.update (fun x => (s x).raised) d c.raised e := by
    intro e
    by_cases h : e = d
    · subst h; simp [setDay]
    · simp [setDay, Function.update_noteq h]
  have h1 : (∑ e in Finset.range 31, ((setDay s d c) e).raised) =
      ∑ e in Finset.range 31, Function.update (fun x => (s x).raised) d c.raised e :=
    Finset.sum_congr rfl (fun e _ => hpt e)
  have h2 := Finset.sum_update_of_mem (f := fun x => (s x).raised) (b := c.raised) hmem
  have h3 := Finset.sum_eq_sum_diff_singleton_add hmem (fun x => (s x).raised)
  show (∑ e in Finset.range 31, ((setDay s d c) e).raised) =
      (∑ e in Finset.range 31, (s e).raised) + c.raised - (s d).raised
  omega

/-- The autoclose loop moves money between rows but conserves the table
total, provided it starts at a day inside the summation window. -/
theorem iftarLoop_sum (s : IftarState) (curDay : Nat) (ov : Int)
    (hcur : curDay ≤ 30) :
    sumRaised (iftarLoop s curDay ov).1 = sumRaised s := by
  induction s, curDay, ov using iftarLoop.induct with
  | case1 s cur ov c hlt =>
      rw [iftarLoop.eq_def]
      simp only [if_pos hlt]
  | case2 s cur ov c hlt nd hnd =>
      rw [iftarLoop.eq_def]
      simp only [if_neg hlt, if_pos hnd]
      rw [sumRaised_setDay _ _ _ (by omega), sumRaised_setDay _ _ _ (by omega)]
      dsimp only
      omega
  | case3 s cur ov c hlt ovv nd hnd hov =>
      rw [iftarLoop.eq_def]
      simp only [if_neg hlt, if_neg hnd, if_pos hov]
      rw [sumRaised_setDay _ _ _ (by omega), sumRaised_setDay _ _ _ (by omega)]
      dsimp only
      omega
  | case4 s cur ov c hlt ovv s1 nd n s2 hnd hov ih =>
      rw [iftarLoop.eq_def]
      simp only [if_neg hlt, if_neg hnd, if_neg hov]
      rw [ih (by omega)]
      rw [sumRaised_setDay _ _ _ (by omega), sumRaised_setDay _ _ _ (by omega)]
      dsimp only
      have e1 : c.raised = (s cur).raised := rfl
      have e2 : n.raised = (s1 nd).raised := rfl
      have e3 : ovv = c.raised - c.target := rfl
      omega

/-- One credit call moves the table total by exactly the credited amount. -/
theorem iftar_add_sum (s : IftarState) (day : Nat) (a : Int) (hday : day ≤ 30) :
    sumRaised (iftar_add_with_autoclose s day a).1 = sumRaised s + a := by
  rw [iftar_add_with_autoclose]
  rw [iftarLoop_sum _ _ _ hday]
  rw [sumRaised_setDay _ _ _ (by omega)]
  dsimp only
  omega

/-- Evaluation rule: the loop returns immediately when the current day is
below target. -/
theorem iftarLoop_break (s : IftarState) (cur : Nat) (ov : Int)
    (h : (s cur).raised < (s cur).target) :
    iftarLoop s cur ov = (s, cur, ov) := by
  rw [iftarLoop.eq_def]
  simp only [if_pos h]

/-- Evaluation rule: one full autoclose iteration at a day below the cap
(cur <= 29, so next_day is cur + 1): close the day, move the overflow to
the next day, then break at the cap, break on zero overflow, or iterate. -/
theorem iftarLoop_advance (s : IftarState) (cur : Nat) (ov : Int)
    (h : (s cur).target ≤ (s cur).raised) (hcur : cur ≤ 29) :
    iftarLoop s cur ov =
      if 30 ≤ cur + 1 then
        (setDay (setDay s cur ⟨(s cur).target, (s cur).target, true⟩) (cur + 1)
           ⟨(s (cur + 1)).target, (s (cur + 1)).raised + ((s cur).raised - (s cur).target),
            false⟩,
         cur + 1, (s cur).raised - (s cur).target)
      else if (s cur).raised - (s cur).target ≤ 0 then
        (setDay (setDay s cur ⟨(s cur).target, (s cur).target, true⟩) (cur + 1)
           ⟨(s (cur + 1)).target, (s (cur + 1)).raised + ((s cur).raised - (s cur).target),
            false⟩,
         cur + 1, (s cur).raised - (s cur).target)
      else
        iftarLoop
          (setDay (setDay s cur ⟨(s cur).target, (s cur).target, true⟩) (cur + 1)
             ⟨(s (cur + 1)).target, (s (cur + 1)).raised + ((s cur).raised - (s cur).target),
              false⟩)
          (cur + 1) ((s cur).raised - (s cur).target) := by
  rw [iftarLoop.eq_def]
  have hmin : min 30 (cur + 1) = cur + 1 := by omega
  simp only [if_neg (not_lt.mpr h), hmin]
  rw [setDay_other s cur (cur + 1) _ (by omega)]

/-- Unfolding of iftar_add_with_autoclose into the initial write and the
autoclose loop. -/
theorem iftar_add_unfold (s : IftarState) (day : Nat) (a : Int) :
    iftar_add_with_autoclose s day a =
      iftarLoop (setDay s day ⟨(s day).target, (s day).raised + a, (s day).closed⟩) day 0 :=
  rfl

/-- Evaluation rule: a credit that leaves the day below target only
performs the initial write. -/
theorem iftar_add_break (s : IftarState) (day : Nat) (a : Int)
    (h : (s day).raised + a < (s day).target) :
    iftar_add_with_autoclose s day a =
      (setDay s day ⟨(s day).target, (s day).raised + a, (s day).closed⟩, day, 0) := by
  rw [iftar_add_unfold]
  apply iftarLoop_break
  rw [setDay_same]
  exact h

/-- Evaluation rule: when the current day (below the cap) has reached its
target, the loop leaves that day closed and clamped to exactly its
target, whatever happens afterwards. -/
theorem iftarLoop_closes (s : IftarState) (cur : Nat) (ov : Int)
    (h : (s cur).target ≤ (s cur).raised) (hcur : cur ≤ 29) :
    (iftarLoop s cur ov).1 cur = ⟨(s cur).target, (s cur).target, true⟩ := by
  rw [iftarLoop_advance s cur ov h hcur]
  by_cases hcap : 30 ≤ cur + 1
  · rw [if_pos hcap]
    dsimp only
    rw [setDay_other _ _ _ _ (by omega), setDay_same]
  · rw [if_neg hcap]
    by_cases hov : (s cur).raised - (s cur).target ≤ 0
    · rw [if_pos hov]
      dsimp only
      rw [setDay_other _ _ _ _ (by omega), setDay_same]
    · rw [if_neg hov]
      rw [iftarLoop_frame _ _ _ _ (by omega) (by omega)]
      rw [setDay_other _ _ _ _ (by omega), setDay_same]

/-- The loop's state-shape invariant: started at an open day inside the
window with every other windowed row settled, it ends at an open day
inside the window with every other windowed row settled. -/
theorem iftarLoop_settled (s : IftarState) (cur : Nat) (ov : Int)
    (hcur : cur ≤ 30) (hopen : (s cur).closed = false)
    (hg : ∀ e, e ≤ 30 → e ≠ cur → rowSettled (s e)) :
    (iftarLoop s cur ov).2.1 ≤ 30 ∧
    ((iftarLoop s cur ov).1 (iftarLoop s cur ov).2.1).closed = false ∧
    ∀ e, e ≤ 30 → e ≠ (iftarLoop s cur ov).2.1 → rowSettled ((iftarLoop s cur ov).1 e) := by
  induction s, cur, ov using iftarLoop.induct with
  | case1 s cur ov c hlt =>
      rw [iftarLoop.eq_def]
      simp only [if_pos hlt]
      exact ⟨hcur, hopen, hg⟩
  | case2 s cur ov c hlt nd hnd =>
      rw [iftarLoop.eq_def]
      simp only [if_neg hlt, if_pos hnd]
      refine ⟨by have : nd = min 30 (cur + 1) := rfl; omega, by rw [setDay_same], ?_⟩
      intro e he hne
      rw [setDay_other _ _ _ _ hne]
      by_cases hec : e = cur
      · subst hec
        rw [setDay_same]
        exact Or.inl ⟨rfl, rfl⟩
      · rw [setDay_other _ _ _ _ hec]
        exact hg e he hec
  | case3 s cur ov c hlt ovv nd hnd hov =>
      rw [iftarLoop.eq_def]
      simp only [if_neg hlt, if_neg hnd, if_pos hov]
      refine ⟨by have : nd = min 30 (cur + 1) := rfl; omega, by rw [setDay_same], ?_⟩
      intro e he hne
      rw [setDay_other _ _ _ _ hne]
      by_cases hec : e = cur
      · subst hec
        rw [setDay_same]
        exact Or.inl ⟨rfl, rfl⟩
      · rw [setDay_other _ _ _ _ hec]
        exact hg e he hec
  | case4 s cur ov c hlt ovv s1 nd n s2 hnd hov ih =>
      rw [iftarLoop.eq_def]
      simp only [if_neg hlt, if_neg hnd, if_neg hov]
      apply ih
      · omega
      · show (setDay s1 nd ⟨n.target, n.raised + ovv, false⟩ nd).closed = false
        rw [setDay_same]
      · intro e he hne
        show rowSettled (setDay s1 nd ⟨n.target, n.raised + ovv, false⟩ e)
        rw [setDay_other _ _ _ _ hne]
        by_cases hec : e = cur
        · rw [hec]
          show rowSettled (setDay s cur ⟨c.target, c.target, true⟩ cur)
          rw [setDay_same]
          exact Or.inl ⟨rfl, rfl⟩
        · show rowSettled (setDay s cur ⟨c.target, c.target, true⟩ e)
          rw [setDay_other _ _ _ _ hec]
          exact hg e he hec

/-- The clamp invariant is restored by the loop: if every row away from
the current day is clamped and the current day (when closed) sits at or
above target, every closed row of the result sits exactly at its target. -/
theorem iftarLoop_clamped (s : IftarState) (cur : Nat) (ov : Int)
    (hg : ∀ e, e ≠ cur → rowClamped (s e))
    (hc : (s cur).closed = true → (s cur).target ≤ (s cur).raised) :
    IftarInv (iftarLoop s cur ov).1 := by
  induction s, cur, ov using iftarLoop.induct with
  | case1 s cur ov c hlt =>
      rw [iftarLoop.eq_def]
      simp only [if_pos hlt]
      intro e
      by_cases hec : e = cur
      · rw [hec]
        intro hcl
        have h1 := hc hcl
        have l1 : c.raised = (s cur).raised := rfl
        have l2 : c.target = (s cur).target := rfl
        omega
      · exact hg e hec
  | case2 s cur ov c hlt nd hnd =>
      rw [iftarLoop.eq_def]
      simp only [if_neg hlt, if_pos hnd]
      intro e
      by_cases hend : e = nd
      · subst hend
        rw [setDay_same]
        intro h
        simp at h
      · rw [setDay_other _ _ _ _ hend]
        by_cases hec : e = cur
        · subst hec
          rw [setDay_same]
          intro _
          rfl
        · rw [setDay_other _ _ _ _ hec]
          exact hg e hec
  | case3 s cur ov c hlt ovv nd hnd hov =>
      rw [iftarLoop.eq_def]
      simp only [if_neg hlt, if_neg hnd, if_pos hov]
      intro e
      by_cases hend : e = nd
      · subst hend
        rw [setDay_same]
        intro h
        simp at h
      · rw [setDay_other _ _ _ _ hend]
        by_cases hec : e = cur
        · subst hec
          rw [setDay_same]
          intro _
          rfl
        · rw [setDay_other _ _ _ _ hec]
          exact hg e hec
  | case4 s cur ov c hlt ovv s1 nd n s2 hnd hov ih =>
      rw [iftarLoop.eq_def]
      simp only [if_neg hlt, if_neg hnd, if_neg hov]
      apply ih
      · intro e hne
        show rowClamped (setDay s1 nd ⟨n.target, n.raised + ovv, false⟩ e)
        rw [setDay_other _ _ _ _ hne]
        by_cases hec : e = cur
        · rw [hec]
          show rowClamped (setDay s cur ⟨c.target, c.target, true⟩ cur)
          rw [setDay_same]
          intro _
          rfl
        · show rowClamped (setDay s cur ⟨c.target, c.target, true⟩ e)
          rw [setDay_other _ _ _ _ hec]
          exact hg e hec
      · show (setDay s1 nd ⟨n.target, n.raised + ovv, false⟩ nd).closed = true → _
        rw [setDay_same]
        intro h
        simp at h

/-- Every row of the loop's result is either closed or has at least its
initial raised amount: the loop never shrinks an open row. -/
theorem iftarLoop_mono (s : IftarState) (cur : Nat) (ov : Int) (e : Nat) :
    ((iftarLoop s cur ov).1 e).closed = true ∨
    (s e).raised ≤ ((iftarLoop s cur ov).1 e).raised := by
  induction s, cur, ov using iftarLoop.induct with
  | case1 s cur ov c hlt =>
      rw [iftarLoop.eq_def]
      simp only [if_pos hlt]
      exact Or.inr le_rfl
  | case2 s cur ov c hlt nd hnd =>
      rw [iftarLoop.eq_def]
      simp only [if_neg hlt, if_pos hnd]
      by_cases hend : e = nd
      · right
        rw [hend, setDay_same]
        rw [show (30 : Nat) ⊓ (cur + 1) = nd from rfl]
        by_cases hnc : nd = cur
        · rw [hnc, setDay_same]
          dsimp only
          omega
        · rw [setDay_other _ _ _ _ hnc]
          dsimp only
          have l1 : c.raised = (s cur).raised := rfl
          have l2 : c.target = (s cur).target := rfl
          omega
      · rw [setDay_other _ _ _ _ hend]
        by_cases hec : e = cur
        · left
          rw [hec, setDay_same]
        · right
          rw [setDay_other _ _ _ _ hec]
  | case3 s cur ov c hlt ovv nd hnd hov =>
      rw [iftarLoop.eq_def]
      simp only [if_neg hlt, if_neg hnd, if_pos hov]
      by_cases hend : e = nd
      · right
        rw [hend, setDay_same]
        rw [show (30 : Nat) ⊓ (cur + 1) = nd from rfl]
        by_cases hnc : nd = cur
        · rw [hnc, setDay_same]
          dsimp only
          omega
        · rw [setDay_other _ _ _ _ hnc]
          dsimp only
          have l1 : c.raised = (s cur).raised := rfl
          have l2 : c.target = (s cur).target := rfl
          omega
      · rw [setDay_other _ _ _ _ hend]
        by_cases hec : e = cur
        · left
          rw [hec, setDay_same]
        · right
          rw [setDay_other _ _ _ _ hec]
  | case4 s cur ov c hlt ovv s1 nd n s2 hnd hov ih =>
      rw [iftarLoop.eq_def]
      simp only [if_neg hlt, if_neg hnd, if_neg hov]
      have hndv : nd = min 30 (cur + 1) := rfl
      by_cases hec : e = cur
      · left
        rw [hec]
        rw [iftarLoop_frame s2 nd ovv cur (by omega) (by omega)]
        show (setDay s1 nd ⟨n.target, n.raised + ovv, false⟩ cur).closed = true
        rw [setDay_other _ _ _ _ (by omega)]
        show (setDay s cur ⟨c.target, c.target, true⟩ cur).closed = true
        rw [setDay_same]
      · rcases ih with hcl | hle
        · exact Or.inl hcl
        · right
          refine le_trans ?_ hle
          show (s e).raised ≤ (setDay s1 nd ⟨n.target, n.raised + ovv, false⟩ e).raised
          by_cases hend : e = nd
          · rw [hend, setDay_same]
            have l1 : n.raised = (setDay s cur ⟨c.target, c.target, true⟩ nd).raised := rfl
            rw [setDay_other _ _ _ _ (by omega)] at l1
            have l3 : ovv = c.raised - c.target := rfl
            dsimp only
            omega
          · rw [setDay_other _ _ _ _ hend]
            show (s e).raised ≤ (setDay s cur ⟨c.target, c.target, true⟩ e).raised
            rw [setDay_other _ _ _ _ hec]

/-- Agreement of the fuel-indexed loop with the loop: the fuel never runs
out when it exceeds the distance from the current day to the cap. -/
theorem iftarLoopF_eq (fuel : Nat) (s : IftarState) (cur : Nat) (ov : Int)
    (h : 30 - cur < fuel) :
    iftarLoopF fuel s cur ov = some (iftarLoop s cur ov) := by
  induction fuel generalizing s cur ov with
  | zero => exact absurd h (by omega)
  | succ f ih =>
      rw [iftarLoopF, iftarLoop.eq_def]
      by_cases h1 : (s cur).raised < (s cur).target
      · simp only [if_pos h1]
      · simp only [if_neg h1]
        by_cases h2 : 30 ≤ min 30 (cur + 1)
        · simp only [if_pos h2]
        · simp only [if_neg h2]
          by_cases h3 : (s cur).raised - (s cur).target ≤ 0
          · simp only [if_pos h3]
          · simp only [if_neg h3]
            exact ih _ _ _ (by omega)

/-- Agreement of the fuel-indexed water loop with the water loop: each
iteration removes at least one unit from raised, so raised-many units of
fuel and one more suffice. -/
theorem waterLoopF_eq (fuel : Nat) (b r t : Int) (h : r.toNat < fuel) :
    waterLoopF fuel b r t = some (waterLoop b r t) := by
  induction fuel generalizing b r with
  | zero => exact absurd h (by omega)
  | succ f ih =>
      rw [waterLoopF, waterLoop.eq_def]
      by_cases h1 : 0 < t ∧ t ≤ r
      · simp only [if_pos h1]
        exact ih _ _ (by omega)
      · simp only [if_neg h1]

/-- The water loop conserves money: closed batches (all at the constant
target) plus the open remainder equal the initial amount. -/
theorem waterLoop_spec (b r t : Int) :
    ((waterLoop b r t).1 - 1) * t + (waterLoop b r t).2 = (b - 1) * t + r := by
  induction b, r, t using waterLoop.induct with
  | case1 b r t h1 ih =>
      rw [waterLoop.eq_def, if_pos h1]
      rw [waterLoop.eq_def] at ih ⊢
      linarith [ih]
  | case2 b r t h1 =>
      rw [waterLoop.eq_def, if_neg h1]

/-- Folding water credits keeps the configured target and conserves the
total. -/
theorem water_fold_aux (l : List Int) (w : WaterState) :
    (l.foldl (fun w a => (water_add_with_autoclose w a).1) w).target = w.target ∧
    ((l.foldl (fun w a => (water_add_with_autoclose w a).1) w).batch - 1) * w.target +
      (l.foldl (fun w a => (water_add_with_autoclose w a).1) w).raised =
      (w.batch - 1) * w.target + w.raised + l.sum := by
  induction l generalizing w with
  | nil => simp
  | cons a rest ih =>
      simp only [List.foldl_cons, List.sum_cons]
      have hw := ih ((water_add_with_autoclose w a).1)
      have h1 : (water_add_with_autoclose w a).1.target = w.target := rfl
      have h2 := waterLoop_spec w.batch (w.raised + a) w.target
      have h3 : (water_add_with_autoclose w a).1.batch =
          (waterLoop w.batch (w.raised + a) w.target).1 := rfl
      have h4 : (water_add_with_autoclose w a).1.raised =
          (waterLoop w.batch (w.raised + a) w.target).2 := rfl
      obtain ⟨hwt, hws⟩ := hw
      rw [h1] at hwt hws
      refine ⟨hwt, ?_⟩
      rw [hws, h3, h4]
      linarith [h2]

/-- A credit started at an open windowed day preserves the reachable
shape: the returned day is windowed and open, and all other windowed
rows are settled. -/
theorem iftar_add_settled (s : IftarState) (day : Nat) (a : Int)
    (hday : day ≤ 30) (hopen : (s day).closed = false)
    (hg : ∀ e, e ≤ 30 → e ≠ day → rowSettled (s e)) :
    (iftar_add_with_autoclose s day a).2.1 ≤ 30 ∧
    ((iftar_add_with_autoclose s day a).1 (iftar_add_with_autoclose s day a).2.1).closed
      = false ∧
    ∀ e, e ≤ 30 → e ≠ (iftar_add_with_autoclose s day a).2.1 →
      rowSettled ((iftar_add_with_autoclose s day a).1 e) := by
  rw [iftar_add_unfold]
  apply iftarLoop_settled _ _ _ hday
  · rw [setDay_same]
    exact hopen
  · intro e he hne
    rw [setDay_other _ _ _ _ hne]
    exact hg e he hne

/-- A positive credit preserves the clamp invariant. -/
theorem iftar_add_clamped (s : IftarState) (day : Nat) (a : Int)
    (ha : 0 < a) (hInv : IftarInv s) :
    IftarInv (iftar_add_with_autoclose s day a).1 := by
  rw [iftar_add_unfold]
  apply iftarLoop_clamped
  · intro e hne
    rw [setDay_other _ _ _ _ hne]
    exact hInv e
  · rw [setDay_same]
    intro hcl
    have := hInv day hcl
    dsimp only
    omega

/-- A nonnegative credit never shrinks a row that ends up open. -/
theorem iftar_add_mono (s : IftarState) (day : Nat) (a : Int) (e : Nat)
    (ha : 0 ≤ a) :
    ((iftar_add_with_autoclose s day a).1 e).closed = true ∨
    (s e).raised ≤ ((iftar_add_with_autoclose s day a).1 e).raised := by
  rw [iftar_add_unfold]
  rcases iftarLoop_mono (setDay s day ⟨(s day).target, (s day).raised + a, (s day).closed⟩)
      day 0 e with hcl | hle
  · exact Or.inl hcl
  · right
    refine le_trans ?_ hle
    by_cases hed : e = day
    · rw [hed, setDay_same]
      dsimp only
      omega
    · rw [setDay_other _ _ _ _ hed]

/-- On a settled table with one open collecting day, the total raised
splits into the closed targets plus the collecting day's raised. -/
theorem settled_sum_split (s : IftarState) (cur : Nat) (hcur : cur ≤ 30)
    (hopen : (s cur).closed = false)
    (hg : ∀ e, e ≤ 30 → e ≠ cur → rowSettled (s e)) :
    closedTargetsSum s + (s cur).raised = sumRaised s := by
  have key : ∀ e ∈ Finset.range 31,
      (s e).raised = (if (s e).closed then (s e).target else 0) +
        (if e = cur then (s cur).raised else 0) := by
    intro e he
    rw [Finset.mem_range] at he
    by_cases hec : e = cur
    · subst hec
      simp [hopen]
    · rcases hg e (by omega) hec with ⟨d1, d2⟩ | ⟨d1, d2⟩
      · simp [d1, d2, hec]
      · simp [d1, d2, hec]
  have hite : (∑ e in Finset.range 31, if e = cur then (s cur).raised else 0) =
      (s cur).raised := by
    rw [Finset.sum_ite_eq']
    rw [if_pos (Finset.mem_range.mpr (by omega))]
  calc closedTargetsSum s + (s cur).raised
      = (∑ e in Finset.range 31, if (s e).closed then (s e).target else 0) +
        (∑ e in Finset.range 31, if e = cur then (s cur).raised else 0) := by
        rw [closedTargetsSum, hite]
    _ = ∑ e in Finset.range 31, ((if (s e).closed then (s e).target else 0) +
        (if e = cur then (s cur).raised else 0)) := Finset.sum_add_distrib.symm
    _ = ∑ e in Finset.range 31, (s e).raised := (Finset.sum_congr rfl key).symm
    _ = sumRaised s := rfl

/-- One credit step on a reachable pair stays reachable and moves the
total by the credited amount. -/
theorem creditStep_inv (p : IftarState × Nat) (a : Int) (h : ReachInv p) :
    ReachInv (creditStep p a) ∧ sumRaised (creditStep p a).1 = sumRaised p.1 + a := by
  obtain ⟨h1, h2, h3⟩ := h
  have hs := iftar_add_settled p.1 p.2 a h1 h2 h3
  exact ⟨⟨hs.1, hs.2.1, hs.2.2⟩, iftar_add_sum p.1 p.2 a h1⟩

/-- Folding credit steps from a reachable pair. -/
theorem creditSeq_inv (l : List Int) (p : IftarState × Nat) (h : ReachInv p) :
    ReachInv (l.foldl creditStep p) ∧
    sumRaised (l.foldl creditStep p).1 = sumRaised p.1 + l.sum := by
  induction l generalizing p with
  | nil => exact ⟨h, by simp⟩
  | cons a rest ih =>
      simp only [List.foldl_cons, List.sum_cons]
      have hstep := creditStep_inv p a h
      have hrest := ih (creditStep p a) hstep.1
      exact ⟨hrest.1, by rw [hrest.2, hstep.2]; ring⟩

/-- The fresh table totals zero. -/
theorem sumRaised_init : sumRaised initIftar = 0 := by
  simp [sumRaised, initIftar]

/-- The starting pair of a credit sequence is reachable. -/
theorem init_reachInv : ReachInv (initIftar, 1) :=
  ⟨by omega, rfl, fun _ _ _ => Or.inr ⟨rfl, rfl⟩⟩

/-- Folding ZF appends: the stored rows are the appended requests in
order, ids stay below nextId, and strict id-ordering is preserved. -/
theorem zfFold_aux (l : List ZfReq) (s : ZfState)
    (hb : ∀ e ∈ s.entries, e.id < s.nextId) :
    ((l.foldl zf_add_entry s).entries.map (fun e => (e.label, e.people)) =
       s.entries.map (fun e => (e.label, e.people)) ++
         l.map (fun r => (zfNormLabel r.label, r.people))) ∧
    ((l.foldl zf_add_entry s).entries.map (fun e => e.people) =
       s.entries.map (fun e => e.people) ++ l.map (fun r => r.people)) ∧
    (∀ e ∈ (l.foldl zf_add_entry s).entries, e.id < (l.foldl zf_add_entry s).nextId) ∧
    (List.Pairwise (fun x y => x.id < y.id) s.entries →
       List.Pairwise (fun x y => x.id < y.id) (l.foldl zf_add_entry s).entries) := by
  induction l generalizing s with
  | nil => exact ⟨by simp, by simp, hb, fun h => h⟩
  | cons r rest ih =>
      simp only [List.foldl_cons, List.map_cons]
      have hb2 : ∀ e ∈ (zf_add_entry s r).entries, e.id < (zf_add_entry s r).nextId := by
        intro e he
        simp only [zf_add_entry, List.mem_append, List.mem_singleton] at he
        rcases he with he | he
        · have := hb e he
          simp only [zf_add_entry]
          omega
        · rw [he]
          simp [zf_add_entry]
      have h := ih (zf_add_entry s r) hb2
      refine ⟨?_, ?_, h.2.2.1, ?_⟩
      · rw [h.1]
        simp [zf_add_entry, List.append_assoc]
      · rw [h.2.1]
        simp [zf_add_entry, List.append_assoc]
      · intro hp
        apply h.2.2.2
        simp only [zf_add_entry]
        rw [List.pairwise_append]
        refine ⟨hp, List.pairwise_singleton _ _, ?_⟩
        intro x hx y hy
        simp only [List.mem_singleton] at hy
        rw [hy]
        exact hb x hx

/-! Claim theorems. -/

/-- C2: for every finite sequence of credits to a recurring campaign from
the initial state, the closed cycles' targets plus the open cycle's raised
equal the sum of all credited amounts.  For the iftar table the open
cycle is the day each credit chain ends on (day 30 keeps accumulating at
the cap, so the law holds with no terminal exception); for the water
campaign the closed batches all carry the configured target. -/
theorem claim_C2 :
    (∀ l : List Int,
       closedTargetsSum (creditSeq l).1 + ((creditSeq l).1 (creditSeq l).2).raised
         = l.sum) ∧
    (∀ (t : Int) (l : List Int),
       ((waterSeq t l).batch - 1) * t + (waterSeq t l).raised = l.sum) := by
  constructor
  · intro l
    obtain ⟨⟨h1, h2, h3⟩, hsum⟩ := creditSeq_inv l (initIftar, 1) init_reachInv
    have hsplit := settled_sum_split (creditSeq l).1 (creditSeq l).2 h1 h2 h3
    rw [hsplit]
    rw [show sumRaised (creditSeq l).1 = sumRaised initIftar + l.sum from hsum]
    rw [sumRaised_init]
    omega
  · intro t l
    have h := (water_fold_aux l ⟨1, t, 0⟩).2
    have e1 : (⟨1, t, 0⟩ : WaterState).target = t := rfl
    have e2 : (⟨1, t, 0⟩ : WaterState).batch = 1 := rfl
    have e3 : (⟨1, t, 0⟩ : WaterState).raised = 0 := rfl
    rw [e1, e2, e3] at h
    show ((l.foldl (fun w a => (water_add_with_autoclose w a).1) ⟨1, t, 0⟩).batch - 1) * t +
      (l.foldl (fun w a => (water_add_with_autoclose w a).1) ⟨1, t, 0⟩).raised = l.sum
    rw [h]
    ring

/-- C4: the unsynchronised read-modify-write of the credit path loses an
update under the interleaving read1, read2, write1, write2: starting from
raised 0 with concurrent credits 5 and 7 the final value is 7, not the
12 that the serial schedule produces. -/
theorem claim_C4_lost_update :
    rmwRun 5 7 [true, false, true, false] 0 none none = 7 ∧
    rmwRun 5 7 [true, true, false, false] 0 none none = 12 ∧
    (7 : Int) ≠ 5 + 7 := by decide

/-- C8: both autoclose loops terminate.  The iftar loop finishes within
31 iterations from any state (its current day strictly increases towards
the cap of 30), and the water loop finishes within raised-many iterations
(each pass removes one positive target from raised): the fuel-indexed
loop never runs out with those bounds and agrees with the loop. -/
theorem claim_C8 :
    (∀ (s : IftarState) (cur : Nat) (ov : Int),
       iftarLoopF 31 s cur ov = some (iftarLoop s cur ov)) ∧
    (∀ b r t : Int, waterLoopF (r.toNat + 1) b r t = some (waterLoop b r t)) :=
  ⟨fun s cur ov => iftarLoopF_eq 31 s cur ov (by omega),
   fun b r t => waterLoopF_eq (r.toNat + 1) b r t (by omega)⟩

/-- C9 counterexample: the /add_iftar and /add_id slash-command handlers
perform no positivity check, so a negative amount reaches storage: after
/add_iftar -5 the stored raised of the day is -5, and after /add_id -7
the Id counter is -7, although the claim requires the stored amounts to
be unchanged (0). -/
theorem claim_C9_counterexample :
    ((cmd_add_iftar initIftar 1 (-5)) 1).raised = -5 ∧
    cmd_add_id 0 (-7) = -7 ∧ ((-5 : Int) ≠ 0) ∧ ((-7 : Int) ≠ 0) := by
  refine ⟨?_, by decide, by decide, by decide⟩
  show ((iftar_add_with_autoclose initIftar 1 (-5)).1 1).raised = -5
  rw [iftar_add_break _ _ _ (by decide)]
  decide

/-- C9 amended: the interactive pending-router paths (manual mark and
admin manual add) reject a non-positive amount before any write, but the
/add_iftar, /add_water and /add_id slash-command handlers apply the
parsed amount with no positivity check, so non-positive amounts do reach
storage on those paths. -/
theorem claim_C9 (a : Int) (ha : a ≤ 0) :
    (∀ (s : IftarState) (day : Nat), mark_iftar_portions s day a = none) ∧
    (∀ w : WaterState, mark_water_eur w a = none) ∧
    (∀ v : Int, id_wait_amount v a = none) :=
  ⟨fun _ _ => if_pos ha, fun _ => if_pos ha, fun _ => if_pos ha⟩

/-- C9 witness: the rejection paths at the concrete amount -5. -/
theorem claim_C9_witness :
    (-5 : Int) ≤ 0 ∧ mark_iftar_portions initIftar 1 (-5) = none ∧
    mark_water_eur ⟨1, 235, 0⟩ (-5) = none ∧ id_wait_amount 0 (-5) = none :=
  ⟨by decide, (claim_C9 (-5) (by decide)).1 initIftar 1,
   (claim_C9 (-5) (by decide)).2.1 ⟨1, 235, 0⟩, (claim_C9 (-5) (by decide)).2.2 0⟩

/-- C10: for every sequence of ZF appends from the empty table, the
reported people total is the sum of the appended counts, the rendered
rows are exactly the appended (label, count) pairs in insertion order,
and the stored ids are strictly increasing, so the ORDER BY id ASC of
the renderer returns insertion order. -/
theorem claim_C10 (kgPer : Int) (l : List ZfReq) :
    (zf_totals (zfFold l) kgPer).1 = (l.map (fun r => r.people)).sum ∧
    zf_list_rows (zfFold l) = l.map (fun r => (zfNormLabel r.label, r.people)) ∧
    List.Pairwise (fun x y => x.id < y.id) (zfFold l).entries := by
  have h := zfFold_aux l zfInit (by intro e he; simp [zfInit] at he)
  have h1 := h.1
  have h2 := h.2.1
  simp only [zfInit, List.map_nil, List.nil_append] at h1 h2
  refine ⟨?_, ?_, h.2.2.2 (by simp [zfInit])⟩
  · exact congrArg List.sum h2
  · exact h1

/-- C1 counterexample: successful_payment keeps no settlement record, so
delivering the same iftar payment event (day 1, 5 portions) twice from
the fresh state leaves day 1 at raised 10: the second processing credited
again instead of detecting a replay and stopping at 5. -/
theorem claim_C1_counterexample :
    ((successful_payment (successful_payment initBot (.iftar 1 5)) (.iftar 1 5)).iftar 1).raised
      = 10 ∧ ((10 : Int) ≠ 5) := by
  refine ⟨?_, by decide⟩
  show ((iftar_add_with_autoclose (iftar_add_with_autoclose initBot.iftar 1 5).1 1 5).1 1).raised
      = 10
  rw [iftar_add_break initBot.iftar 1 5 (by decide)]
  rw [iftar_add_break _ _ _ (by decide)]
  decide

/-- C1 amended: the handler stores no settlement record and never returns
an AlreadyApplied outcome; processing the same confirmed payment event is
unconditional, so each delivery credits the ledger once and two
deliveries of the same event credit it twice in total. -/
theorem claim_C1 (s : BotState) (day : Nat) (a : Int) (hday : day ≤ 30) :
    sumRaised ((successful_payment (successful_payment s (.iftar day a)) (.iftar day a)).iftar)
      = sumRaised s.iftar + a + a := by
  show sumRaised (iftar_add_with_autoclose (iftar_add_with_autoclose s.iftar day a).1 day a).1
      = sumRaised s.iftar + a + a
  rw [iftar_add_sum _ _ _ hday, iftar_add_sum _ _ _ hday]

/-- C1 witness: two deliveries of the same payment at day 1 for 5
portions raise the table total by 10. -/
theorem claim_C1_witness :
    (1 : Nat) ≤ 30 ∧
    sumRaised ((successful_payment (successful_payment initBot (.iftar 1 5)) (.iftar 1 5)).iftar)
      = sumRaised initBot.iftar + 5 + 5 :=
  ⟨by decide, claim_C1 initBot 1 5 (by decide)⟩

/-- C6 counterexample: iftar_set_target does not check the closed flag,
so lowering the target of a closed clamped day (raised 100 = target 100)
to 50 leaves a closed cycle with raised 100 and target 50: the predicate
is not preserved by the target-change operation. -/
theorem claim_C6_counterexample :
    IftarInv (setDay initIftar 1 ⟨100, 100, true⟩) ∧
    ((iftar_set_target (setDay initIftar 1 ⟨100, 100, true⟩) 1 50) 1).closed = true ∧
    ((iftar_set_target (setDay initIftar 1 ⟨100, 100, true⟩) 1 50) 1).raised ≠
      ((iftar_set_target (setDay initIftar 1 ⟨100, 100, true⟩) 1 50) 1).target := by
  refine ⟨?_, by decide, by decide⟩
  intro e
  by_cases he : e = 1
  · rw [he]
    intro _
    decide
  · rw [setDay_other _ _ _ _ he]
    intro hc
    exact absurd hc (by simp [initIftar])

/-- C6 amended: the closed-implies-clamped predicate holds in the initial
state and is preserved by every positive credit with auto-advance; it is
not preserved by a target change on a closed cycle (see the
counterexample), which the source performs without checking the flag. -/
theorem claim_C6 :
    IftarInv initIftar ∧
    ∀ (s : IftarState) (day : Nat) (a : Int), 0 < a → IftarInv s →
      IftarInv (iftar_add_with_autoclose s day a).1 :=
  ⟨fun _ hc => absurd hc (by simp [initIftar]),
   fun s day a ha hI => iftar_add_clamped s day a ha hI⟩

/-- C6 witness: a positive credit on the fresh table keeps the predicate. -/
theorem claim_C6_witness :
    (0 : Int) < 5 ∧ IftarInv (iftar_add_with_autoclose initIftar 3 5).1 :=
  ⟨by decide, claim_C6.2 initIftar 3 5 (by decide) claim_C6.1⟩

/-- C7 counterexample: the scheduled daily rollover zeroes the raised
amount of the still-open previous day (moving it to the new day), so an
open cycle's stored raised does decrease under an operation of the
system: day 1 is open with raised 50 before the rollover and open with
raised 0 after it. -/
theorem claim_C7_counterexample :
    ((setDay initIftar 1 ⟨100, 50, false⟩) 1).closed = false ∧
    ((rollover_iftar_if_needed (setDay initIftar 1 ⟨100, 50, false⟩) 1 2) 1).closed = false ∧
    ((rollover_iftar_if_needed (setDay initIftar 1 ⟨100, 50, false⟩) 1 2) 1).raised <
      ((setDay initIftar 1 ⟨100, 50, false⟩) 1).raised := by decide

/-- C7 amended: under the credit operation with a positive amount, any
day that is open after the call has at least its previous raised amount
(credits never shrink an open cycle); the daily rollover, by contrast,
moves an open day's raised away (see the counterexample). -/
theorem claim_C7 (s : IftarState) (day : Nat) (a : Int) (e : Nat) (ha : 0 < a)
    (hopen2 : ((iftar_add_with_autoclose s day a).1 e).closed = false) :
    (s e).raised ≤ ((iftar_add_with_autoclose s day a).1 e).raised := by
  rcases iftar_add_mono s day a e (le_of_lt ha) with hcl | hle
  · rw [hcl] at hopen2
    simp at hopen2
  · exact hle

/-- C7 witness: a credit of 5 at open day 1 of the fresh table leaves the
day open and raised does not decrease. -/
theorem claim_C7_witness :
    (0 : Int) < 5 ∧
    ((iftar_add_with_autoclose initIftar 1 5).1 1).closed = false ∧
    (initIftar 1).raised ≤ ((iftar_add_with_autoclose initIftar 1 5).1 1).raised := by
  have hopen2 : ((iftar_add_with_autoclose initIftar 1 5).1 1).closed = false := by
    rw [iftar_add_break _ _ _ (by decide)]
    decide
  exact ⟨by decide, hopen2, claim_C7 initIftar 1 5 1 (by decide) hopen2⟩

/-- C5 counterexample: crediting 5 portions at the closed, clamped day 1
is not rejected and is not a no-op: the handler returns normally and the
autoclose loop forwards the 5 portions to day 2, whose stored raised
changes from 0 to 5. -/
theorem claim_C5_counterexample :
    ((iftar_add_with_autoclose (setDay initIftar 1 ⟨100, 100, true⟩) 1 5).1 2).raised = 5 ∧
    ((setDay initIftar 1 ⟨100, 100, true⟩) 2).raised = 0 ∧ ((5 : Int) ≠ 0) := by
  refine ⟨?_, by decide, by decide⟩
  rw [iftar_add_unfold]
  have cond1 : ((setDay (setDay initIftar 1 ⟨100, 100, true⟩) 1
      ⟨((setDay initIftar 1 ⟨100, 100, true⟩) 1).target,
       ((setDay initIftar 1 ⟨100, 100, true⟩) 1).raised + 5,
       ((setDay initIftar 1 ⟨100, 100, true⟩) 1).closed⟩) 1).target ≤
      ((setDay (setDay initIftar 1 ⟨100, 100, true⟩) 1
      ⟨((setDay initIftar 1 ⟨100, 100, true⟩) 1).target,
       ((setDay initIftar 1 ⟨100, 100, true⟩) 1).raised + 5,
       ((setDay initIftar 1 ⟨100, 100, true⟩) 1).closed⟩) 1).raised := by decide
  rw [iftarLoop_advance _ _ _ cond1 (by omega)]
  rw [if_neg (by decide), if_neg (by decide)]
  rw [iftarLoop_break _ _ _ (by decide)]
  decide

/-- C5 amended: a credit directed at a closed clamped cycle is accepted,
not rejected: the amount is written onto the closed day, the autoclose
loop immediately re-clamps that day (leaving it closed with raised equal
to target, i.e. its stored row unchanged), and the full amount flows to
the following day, which stays open when it remains below target. -/
theorem claim_C5 (s : IftarState) (d : Nat) (a : Int)
    (hd : d ≤ 28) (hclosed : (s d).closed = true)
    (hclamp : (s d).raised = (s d).target) (ha : 0 < a)
    (hnext : (s (d + 1)).raised + a < (s (d + 1)).target) :
    (iftar_add_with_autoclose s d a).1 d = s d ∧
    (iftar_add_with_autoclose s d a).1 (d + 1) =
      ⟨(s (d + 1)).target, (s (d + 1)).raised + a, false⟩ ∧
    (iftar_add_with_autoclose s d a).2.1 = d + 1 := by
  have e1 : (setDay s d ⟨(s d).target, (s d).raised + a, (s d).closed⟩) d
      = ⟨(s d).target, (s d).raised + a, (s d).closed⟩ := setDay_same _ _ _
  have e2 : (setDay s d ⟨(s d).target, (s d).raised + a, (s d).closed⟩) (d + 1)
      = s (d + 1) := setDay_other _ _ _ _ (by omega)
  have cond1 : ((setDay s d ⟨(s d).target, (s d).raised + a, (s d).closed⟩) d).target ≤
      ((setDay s d ⟨(s d).target, (s d).raised + a, (s d).closed⟩) d).raised := by
    rw [e1]
    dsimp only
    omega
  rw [iftar_add_unfold]
  rw [iftarLoop_advance _ _ _ cond1 (by omega)]
  rw [e1, e2]
  dsimp only
  rw [if_neg (show ¬ 30 ≤ d + 1 by omega)]
  rw [if_neg (show ¬ ((s d).raised + a - (s d).target ≤ 0) by omega)]
  rw [iftarLoop_break _ _ _ (by rw [setDay_same]; dsimp only; omega)]
  refine ⟨?_, ?_, rfl⟩
  · dsimp only
    rw [setDay_other _ _ _ _ (by omega : d ≠ d + 1), setDay_same]
    have hsd : s d = ⟨(s d).target, (s d).raised, (s d).closed⟩ := rfl
    rw [hclamp, hclosed] at hsd
    exact hsd.symm
  · dsimp only
    rw [setDay_same]
    have harith : (s (d + 1)).raised + ((s d).raised + a - (s d).target) =
        (s (d + 1)).raised + a := by omega
    rw [harith]

/-- C5 witness: crediting 5 at the closed clamped day 1 leaves day 1
unchanged and moves the 5 portions onto the open day 2. -/
theorem claim_C5_witness :
    ((1 : Nat) ≤ 28 ∧ ((setDay initIftar 1 ⟨100, 100, true⟩) 1).closed = true ∧
     ((setDay initIftar 1 ⟨100, 100, true⟩) 1).raised =
       ((setDay initIftar 1 ⟨100, 100, true⟩) 1).target ∧ (0 : Int) < 5 ∧
     ((setDay initIftar 1 ⟨100, 100, true⟩) 2).raised + 5 <
       ((setDay initIftar 1 ⟨100, 100, true⟩) 2).target) ∧
    (iftar_add_with_autoclose (setDay initIftar 1 ⟨100, 100, true⟩) 1 5).1 1 =
      (setDay initIftar 1 ⟨100, 100, true⟩) 1 ∧
    (iftar_add_with_autoclose (setDay initIftar 1 ⟨100, 100, true⟩) 1 5).1 2 =
      ⟨((setDay initIftar 1 ⟨100, 100, true⟩) 2).target,
       ((setDay initIftar 1 ⟨100, 100, true⟩) 2).raised + 5, false⟩ := by
  have h := claim_C5 (setDay initIftar 1 ⟨100, 100, true⟩) 1 5 (by decide) (by decide)
      (by decide) (by decide) (by decide)
  exact ⟨⟨by decide, by decide, by decide, by decide, by decide⟩, h.1, h.2.1⟩

/-- C3: crediting a to an open day below the cap with raised + a at or
over target closes that day at exactly its target and carries the excess
raised + a - target to the next day: onto a fresh next day (raised 0)
below its target the next day opens with raised equal to the excess
(zero excess gives raised 0), and if the excess reaches the fresh next
day's positive target, the next day is closed at exactly its target in
turn (the chain continues with the remaining excess). -/
theorem claim_C3 (s : IftarState) (d : Nat) (a : Int)
    (hd : d ≤ 28) (hopen : (s d).closed = false)
    (hreach : (s d).target ≤ (s d).raised + a) :
    ((iftar_add_with_autoclose s d a).1 d = ⟨(s d).target, (s d).target, true⟩) ∧
    ((s (d + 1)).raised = 0 →
       (s d).raised + a - (s d).target < (s (d + 1)).target →
       (iftar_add_with_autoclose s d a).1 (d + 1) =
         ⟨(s (d + 1)).target, (s d).raised + a - (s d).target, false⟩ ∧
       (iftar_add_with_autoclose s d a).2.1 = d + 1) ∧
    ((s (d + 1)).raised = 0 → 0 < (s (d + 1)).target →
       (s (d + 1)).target ≤ (s d).raised + a - (s d).target →
       (iftar_add_with_autoclose s d a).1 (d + 1) =
         ⟨(s (d + 1)).target, (s (d + 1)).target, true⟩) := by
  have e1 : (setDay s d ⟨(s d).target, (s d).raised + a, (s d).closed⟩) d
      = ⟨(s d).target, (s d).raised + a, (s d).closed⟩ := setDay_same _ _ _
  have e2 : (setDay s d ⟨(s d).target, (s d).raised + a, (s d).closed⟩) (d + 1)
      = s (d + 1) := setDay_other _ _ _ _ (by omega)
  have cond1 : ((setDay s d ⟨(s d).target, (s d).raised + a, (s d).closed⟩) d).target ≤
      ((setDay s d ⟨(s d).target, (s d).raised + a, (s d).closed⟩) d).raised := by
    rw [e1]
    dsimp only
    omega
  refine ⟨?_, ?_, ?_⟩
  · rw [iftar_add_unfold]
    rw [iftarLoop_closes _ _ _ cond1 (by omega)]
    rw [e1]
  · intro hr2 hlt2
    rw [iftar_add_unfold]
    rw [iftarLoop_advance _ _ _ cond1 (by omega)]
    rw [e1, e2]
    dsimp only
    rw [if_neg (show ¬ 30 ≤ d + 1 by omega)]
    by_cases hov : (s d).raised + a - (s d).target ≤ 0
    · rw [if_pos hov]
      refine ⟨?_, rfl⟩
      dsimp only
      rw [setDay_same, hr2, zero_add]
    · rw [if_neg hov]
      rw [iftarLoop_break _ _ _ (by rw [setDay_same]; dsimp only; omega)]
      refine ⟨?_, rfl⟩
      dsimp only
      rw [setDay_same, hr2, zero_add]
  · intro hr2 hpos2 hge2
    rw [iftar_add_unfold]
    rw [iftarLoop_advance _ _ _ cond1 (by omega)]
    rw [e1, e2]
    dsimp only
    rw [if_neg (show ¬ 30 ≤ d + 1 by omega)]
    rw [if_neg (show ¬ ((s d).raised + a - (s d).target ≤ 0) by omega)]
    rw [iftarLoop_closes _ _ _ (by rw [setDay_same]; dsimp only; omega) (by omega)]
    rw [setDay_same]

/-- C3 witness: at day 1 with target 100 and raised 90, a credit of 250
closes day 1 at 100 and the excess 240 closes the fresh day 2 at its
target 100 in turn. -/
theorem claim_C3_witness :
    ((1 : Nat) ≤ 28 ∧ ((setDay initIftar 1 ⟨100, 90, false⟩) 1).closed = false ∧
     ((setDay initIftar 1 ⟨100, 90, false⟩) 1).target ≤
       ((setDay initIftar 1 ⟨100, 90, false⟩) 1).raised + 250) ∧
    (iftar_add_with_autoclose (setDay initIftar 1 ⟨100, 90, false⟩) 1 250).1 1 =
      ⟨100, 100, true⟩ ∧
    (iftar_add_with_autoclose (setDay initIftar 1 ⟨100, 90, false⟩) 1 250).1 2 =
      ⟨100, 100, true⟩ := by
  have h := claim_C3 (setDay initIftar 1 ⟨100, 90, false⟩) 1 250 (by decide) (by decide)
      (by decide)
  exact ⟨⟨by decide, by decide, by decide⟩, h.1, h.2.2 (by decide) (by decide) (by decide)⟩

end SadaqaBot
